import Mathlib

/-!
Verification of the `loops` concurrent dataflow engine (Go).

Shallow embedding notes:
* `float64` values are modelled as exact rationals (`ℚ`); the numeric claims
  are about the algorithmic behaviour in the ideal arithmetic the spec
  describes.
* A Go channel slot (`chan float64`) bound to a port is modelled as
  `Option Nat`: `none` is the nil (unconnected) channel, `some id` is an
  allocated channel identified by its allocation id.
* Go `int` indices are modelled as `Int`; an out-of-range indexing operation
  (a Go runtime panic) is modelled by an `Option`-valued operation returning
  `none`.
* The concurrent parts (`Start`, the per-block worker goroutine) are modelled
  by the ordered event traces they produce and, for the feedback-cycle claim,
  by an explicit rendezvous transition system.
-/

namespace Loops

/-- Values flowing on the channels: exact model of Go `float64`. -/
abbrev Val : Type := ℚ

/-- Default simulation time step increment (`var DT = 0.01`). -/
def DT : Val := 1/100

/-- A port-to-channel binding: `none` is Go's nil channel (unconnected),
`some id` a channel allocated by `make(chan float64)` with identity `id`. -/
abbrev Edge : Type := Option Nat

/-- The static part of the `Block` interface: the declared arities
(`Inputs()` and `Outputs()`). -/
structure BlockArity where
  inputsN : Nat
  outputsN : Nat
deriving DecidableEq, Repr

/-- `ioBlock`: a block together with its in- and output channel slices. -/
structure IOBlock where
  block : BlockArity
  In : List Edge
  Out : List Edge
deriving DecidableEq, Repr

/-- `IC`: an initial condition sent to a channel on startup. -/
structure IC where
  value : Val
  block : Int
  input : Int
deriving DecidableEq, Repr

/-- The `System` struct: boundary ports, registered blocks, pending initial
conditions and the (never written) `initialized` flag. -/
structure System where
  In : List Edge
  Out : List Edge
  blocks : List IOBlock
  initials : List IC
  initialized : Bool
deriving DecidableEq, Repr

/-- Go slice read `l[i]` with an `int` index, panic modelled as `none`. -/
def getI? {α : Type} (l : List α) (i : Int) : Option α :=
  if 0 ≤ i then l[i.toNat]? else none

/-- Go slice write `l[i] = a` with an `int` index, panic modelled as `none`. -/
def setI? {α : Type} (l : List α) (i : Int) (a : α) : Option (List α) :=
  if 0 ≤ i ∧ i.toNat < l.length then some (l.set i.toNat a) else none

/-- `Add` appends a block whose `In`/`Out` slices are freshly made
(`make([]chan float64, n)`: length n, all nil). -/
def System.Add (s : System) (b : BlockArity) : System :=
  { s with blocks := s.blocks ++
      [⟨b, List.replicate b.inputsN none, List.replicate b.outputsN none⟩] }

/-- `AddIC` records the initial condition `x` for input `i` of block `dst`. -/
def System.AddIC (s : System) (x : Val) (dst i : Int) : System :=
  { s with initials := s.initials ++ [⟨x, dst, i⟩] }

/-- Destination half of `Connect`: `if i < 0 { s.Out[-i-1] = c } else
{ s.blocks[dst].In[i] = c }`. -/
def connectDst (s : System) (dst i : Int) (c : Nat) : Option System :=
  if i < 0 then
    (setI? s.Out (-i-1) (some c)).map fun l => { s with Out := l }
  else do
    let blk ← getI? s.blocks dst
    let newIn ← setI? blk.In i (some c)
    let newBlocks ← setI? s.blocks dst { blk with In := newIn }
    pure { s with blocks := newBlocks }

/-- Source half of `Connect`: `if o < 0 { s.In[-o-1] = c } else
{ s.blocks[src].Out[o] = c }`. -/
def connectSrc (s : System) (src o : Int) (c : Nat) : Option System :=
  if o < 0 then
    (setI? s.In (-o-1) (some c)).map fun l => { s with In := l }
  else do
    let blk ← getI? s.blocks src
    let newOut ← setI? blk.Out o (some c)
    let newBlocks ← setI? s.blocks src { blk with Out := newOut }
    pure { s with blocks := newBlocks }

/-- `Connect` allocates one fresh channel (its identity `c` is supplied by
the allocator) and binds it on the destination side, then the source side,
exactly as the Go body does. A `none` result is a Go index-out-of-range
panic. -/
def System.Connect (s : System) (src dst o i : Int) (c : Nat) : Option System :=
  (connectDst s dst i c).bind fun s1 => connectSrc s1 src o c

/-- The error returned by `check`: `fmt.Errorf("block %d input %d is not
connected", i, k)` carries the block index, the port index and whether it
is an input port. -/
structure CheckErr where
  block : Nat
  port : Nat
  isInput : Bool
deriving DecidableEq, Repr

/-- One block's scan in `check`: first nil input, then first nil output. -/
def checkBlock (i : Nat) (b : IOBlock) : Option CheckErr :=
  match b.In.findIdx? Option.isNone with
  | some k => some ⟨i, k, true⟩
  | none =>
    match b.Out.findIdx? Option.isNone with
    | some k => some ⟨i, k, false⟩
    | none => none

/-- The loop of `check` over `s.blocks` with running index. -/
def checkFrom (i : Nat) : List IOBlock → Option CheckErr
  | [] => none
  | b :: rest =>
    match checkBlock i b with
    | some e => some e
    | none => checkFrom (i+1) rest

/-- `check` returns `none` for Go's `nil` error, `some e` for the first
unconnected port found. -/
def System.check (s : System) : Option CheckErr :=
  checkFrom 0 s.blocks

/-- Observable events of `Start` in program order: spawning the goroutine for
a block index, the blocking send of an initial condition onto its target
edge, and the single blocking receive on `done`. -/
inductive SEvent where
  | spawn : Nat → SEvent
  | icSend : Int → Int → Val → SEvent
  | waitDone : SEvent
deriving DecidableEq, Repr

/-- The IC delivery loop of `Start`:
`s.blocks[ic.block].In[ic.input] <- ic.value`, one blocking send per
recorded initial condition, in order; `none` is the index-out-of-range
panic of the unguarded indexing. -/
def icDeliver (s : System) : List IC → Option (List SEvent)
  | [] => some []
  | ic :: rest => do
    let blk ← getI? s.blocks ic.block
    let _ ← getI? blk.In ic.input
    let tail ← icDeliver s rest
    pure (SEvent.icSend ic.block ic.input ic.value :: tail)

/-- How a call of `Start` returns: a configuration error from `check`
(Go: `return err`), a runtime panic in the IC delivery loop, or the normal
return (Go: `<-done; return nil`). -/
inductive StartResult where
  | configErr : CheckErr → StartResult
  | panicked : StartResult
  | retNil : StartResult
deriving DecidableEq, Repr

/-- `Start`: check, spawn one goroutine per block (in block-list order),
deliver the initial conditions, wait for one `done` notification, return
nil.  The second component is the ordered trace of observable events the
call performs. -/
def System.Start (s : System) : StartResult × List SEvent :=
  match s.check with
  | some e => (.configErr e, [])
  | none =>
    let spawns := (List.range s.blocks.length).map SEvent.spawn
    match icDeliver s s.initials with
    | none => (.panicked, spawns)
    | some icEvents => (.retNil, spawns ++ icEvents ++ [SEvent.waitDone])

/-- `Step` of a `System` (the container as a block): it starts the system
on every call on which `s.initialized` is false.  Neither `Step` nor
`Start` ever assigns `initialized`, so the returned state is unchanged;
the boolean records whether this call invoked `Start`. -/
def System.Step (s : System) : System × Bool :=
  if !s.initialized then (s, true) else (s, false)

/-- `Inputs()` of a `System`. -/
def System.Inputs (s : System) : Nat := s.In.length

/-- `Outputs()` of a `System`. -/
def System.Outputs (s : System) : Nat := s.Out.length

/-! ### The per-block worker goroutine -/

/-- Observable events of one iteration of a worker's loop: a successful
receive on input port `i` yielding `v`, a receive that found input port `i`
closed, the single call of the block's `Step`, the send of `true` on
`done`, and the send of `v` on output port `i`. -/
inductive WEvent where
  | recvOk : Nat → Val → WEvent
  | recvClosed : Nat → WEvent
  | stepCall : List Val → WEvent
  | doneSend : WEvent
  | send : Nat → Val → WEvent
deriving DecidableEq, Repr

/-- How one worker-loop iteration ends: the worker returned because an
input edge was closed, returned after signalling `done`, or fell through
to the next iteration. -/
inductive WOutcome where
  | exitClosed : WOutcome
  | exitStop : WOutcome
  | continued : WOutcome
deriving DecidableEq, Repr

/-- The receive loop `for i, c := range in { x[i], ok = <-c; if !ok
{ return } }`, starting at port index `i`.  Each input edge either yields
a value (`some v`) or is found closed (`none`).  Returns the receive
events in order and the gathered values, `none` if the loop returned
early. -/
def recvPhase (i : Nat) : List (Option Val) → List WEvent × Option (List Val)
  | [] => ([], some [])
  | some v :: rest =>
    let (es, r) := recvPhase (i+1) rest
    (WEvent.recvOk i v :: es, r.map (v :: ·))
  | none :: _ => ([WEvent.recvClosed i], none)

/-- One iteration of the worker goroutine's `for` loop.  `recvs` is what
each input edge delivers this iteration; `step` is the block's `Step`
function (`none` models `return false`, `some ys` models `return true`
with outputs `ys`).  Returns the ordered event trace of the iteration and
how it ended. -/
def workerIteration (recvs : List (Option Val)) (step : List Val → Option (List Val)) :
    List WEvent × WOutcome :=
  match recvPhase 0 recvs with
  | (es, none) => (es, .exitClosed)
  | (es, some xs) =>
    match step xs with
    | none => (es ++ [WEvent.stepCall xs, WEvent.doneSend], .exitStop)
    | some ys =>
      (es ++ [WEvent.stepCall xs] ++ ys.enum.map (fun p => WEvent.send p.1 p.2),
       .continued)

/-! ### Standard blocks (`blocks.go`) -/

/-- `Integrate`: `b.State += in[0] * DT; out[0] = b.State; return true`.
`dt` is the value of the global `DT` at the time of the call. -/
def IntegrateStep (dt : Val) (state : Val) (x : Val) : Val × Val :=
  let s := state + x * dt
  (s, s)

/-- Iterating `Integrate` from state `state` on the input stream `u`:
the state after `n` steps. -/
def IntegrateRun (dt : Val) (state : Val) (u : Nat → Val) : Nat → Val
  | 0 => state
  | n+1 => (IntegrateStep dt (IntegrateRun dt state u n) (u n)).1

/-- The `Stop` block's state: stop time, registered callbacks (abstract
identifiers, kept in registration order) and the current time `t`. -/
structure StopBlock where
  Time : Val
  Callbacks : List Nat
  t : Val
deriving DecidableEq, Repr

/-- `Stop.Step`: `if s.t += DT; s.t >= s.Time { for _, f := range
s.Callbacks { f() }; return false }; out[0] = in[0]; return true`.
The middle component lists the callbacks invoked by this call, in order;
the last is `some out0` on `return true` and `none` on `return false`
(no output written). -/
def StopStep (dt : Val) (s : StopBlock) (x : Val) : StopBlock × List Nat × Option Val :=
  let t := s.t + dt
  if s.Time ≤ t then ({ s with t := t }, s.Callbacks, none)
  else ({ s with t := t }, [], some x)

/-- The `Stop` block's state after `n` calls of `Step` (callbacks run and
stop signalled are reported per call by `StopStep`). -/
def StopRun (dt : Val) (s : StopBlock) (u : Nat → Val) : Nat → StopBlock
  | 0 => s
  | n+1 => (StopStep dt (StopRun dt s u n) (u n)).1

/-! ### Two-block feedback cycle (A → B → A) as a rendezvous transition system

Worker A reads from the B→A channel and writes to the A→B channel; worker B
reads from the A→B channel and writes to the B→A channel.  A worker is
either blocked receiving on its input channel (`recv`) or — having received
a value and computed its step — blocked sending its result (`send`);
computing the step is a local action fused with the receive rendezvous.
The initial condition is a pending blocking send by the `Start` goroutine
on the A→B channel. -/

/-- Where a worker is blocked: receiving its input or sending its output. -/
inductive Phase where
  | recv : Phase
  | send : Phase
deriving DecidableEq, Repr

/-- Global state of the two-worker cycle: each worker's phase, the pending
initial-condition send on the A→B channel (if any), the values the workers
are ready to send, and how many `Step` calls each worker has completed. -/
structure CycState where
  phaseA : Phase
  phaseB : Phase
  pend : Option Val
  valA : Val
  valB : Val
  cntA : Nat
  cntB : Nat
deriving DecidableEq, Repr

/-- One rendezvous of the cycle: the IC send pairing with B's receive, B's
send pairing with A's receive, or A's send pairing with B's receive.  The
receiving worker immediately computes its step (`fA`/`fB`) and moves to its
send phase; the sender on a worker-to-worker channel moves back to its
receive phase. -/
inductive CycStep (fA fB : Val → Val) : CycState → CycState → Prop where
  | deliverIC : ∀ pA v vA vB cA cB,
      CycStep fA fB ⟨pA, .recv, some v, vA, vB, cA, cB⟩
                    ⟨pA, .send, none, vA, fB v, cA, cB+1⟩
  | sendBA : ∀ pend vA vB cA cB,
      CycStep fA fB ⟨.recv, .send, pend, vA, vB, cA, cB⟩
                    ⟨.send, .recv, pend, fA vB, vB, cA+1, cB⟩
  | sendAB : ∀ pend vA vB cA cB,
      CycStep fA fB ⟨.send, .recv, pend, vA, vB, cA, cB⟩
                    ⟨.recv, .send, pend, vA, fB vA, cA, cB+1⟩

/-- Start state of the cycle with the initial condition `ic` pre-seeded on
the A→B edge. -/
def cycInit (ic : Val) : CycState := ⟨.recv, .recv, some ic, 0, 0, 0, 0⟩

/-- Start state of the cycle with no initial condition seeded. -/
def cycInitNoIC : CycState := ⟨.recv, .recv, none, 0, 0, 0, 0⟩

/-- Values B is ready to send after its successive steps. -/
def bSeq (fA fB : Val → Val) (ic : Val) : Nat → Val
  | 0 => fB ic
  | k+1 => fB (fA (bSeq fA fB ic k))

/-- Values A is ready to send after its successive steps (`0` before the
first). -/
def aSeq (fA fB : Val → Val) (ic : Val) : Nat → Val
  | 0 => 0
  | k+1 => fA (bSeq fA fB ic k)

/-- The (unique) execution of the seeded cycle, state by state. -/
def cycRun (fA fB : Val → Val) (ic : Val) : Nat → CycState
  | 0 => cycInit ic
  | n+1 =>
    if n % 2 = 0 then
      ⟨.recv, .send, none, aSeq fA fB ic (n/2), bSeq fA fB ic (n/2), n/2, n/2+1⟩
    else
      ⟨.send, .recv, none, aSeq fA fB ic (n/2+1), bSeq fA fB ic (n/2), n/2+1, n/2+1⟩

/-! ### Accessors used by the claims -/

/-- Read a block's input-port binding through Go indexing
(`s.blocks[b].In[p]`), `none` on an out-of-range index. -/
def inPort (s : System) (b p : Int) : Option Edge :=
  (getI? s.blocks b).bind fun blk => getI? blk.In p

/-- Read a block's output-port binding through Go indexing
(`s.blocks[b].Out[p]`), `none` on an out-of-range index. -/
def outPort (s : System) (b p : Int) : Option Edge :=
  (getI? s.blocks b).bind fun blk => getI? blk.Out p

/-- A fresh `System` (the Go zero value: no ports, no blocks, no ICs,
`initialized` false). -/
def freshSystem : System := ⟨[], [], [], [], false⟩

/-! ## Helper lemmas about `check` -/

theorem checkBlock_eq_none_iff (i : Nat) (b : IOBlock) :
    checkBlock i b = none ↔ (∀ e ∈ b.In, e.isSome) ∧ (∀ e ∈ b.Out, e.isSome) := by
  unfold checkBlock
  rcases h1 : b.In.findIdx? Option.isNone with _ | k
  · rcases h2 : b.Out.findIdx? Option.isNone with _ | k2
    · rw [List.findIdx?_eq_none_iff] at h1 h2
      simp only [true_iff]
      constructor
      · intro e he
        have := h1 e he
        simpa [Option.isNone_eq_false_iff] using this
      · intro e he
        have := h2 e he
        simpa [Option.isNone_eq_false_iff] using this
    · simp only [reduceCtorEq, false_iff, not_and]
      intro _ hOut
      rw [List.findIdx?_eq_some_iff_getElem] at h2
      obtain ⟨hk, hp, -⟩ := h2
      have := hOut (b.Out.get ⟨k2, hk⟩) (b.Out.get_mem _ _)
      simp only [List.get_eq_getElem] at this
      rw [Option.isNone_iff_eq_none] at hp
      rw [hp] at this
      simp at this
  · simp only [reduceCtorEq, false_iff, not_and]
    intro hIn
    rw [List.findIdx?_eq_some_iff_getElem] at h1
    obtain ⟨hk, hp, -⟩ := h1
    have := hIn (b.In.get ⟨k, hk⟩) (b.In.get_mem _ _)
    simp only [List.get_eq_getElem] at this
    rw [Option.isNone_iff_eq_none] at hp
    rw [hp] at this
    simp at this

theorem checkFrom_eq_none_iff (bs : List IOBlock) : ∀ i : Nat,
    checkFrom i bs = none ↔
      ∀ b ∈ bs, (∀ e ∈ b.In, e.isSome) ∧ (∀ e ∈ b.Out, e.isSome) := by
  induction bs with
  | nil => intro i; simp [checkFrom]
  | cons b rest ih =>
    intro i
    rw [checkFrom]
    rcases h : checkBlock i b with _ | e
    · have hb := (checkBlock_eq_none_iff i b).1 h
      simp only [ih (i+1), List.mem_cons]
      constructor
      · rintro hr x (rfl | hx)
        · exact hb
        · exact hr x hx
      · intro hall x hx
        exact hall x (Or.inr hx)
    · simp only [reduceCtorEq, false_iff, not_forall]
      refine ⟨b, by simp, ?_⟩
      intro hb
      rw [(checkBlock_eq_none_iff i b).2 hb] at h
      cases h

theorem checkBlock_eq_some_spec (i : Nat) (b : IOBlock) (e : CheckErr)
    (h : checkBlock i b = some e) :
    e.block = i ∧
      ((e.isInput = true ∧ b.In[e.port]? = some none) ∨
       (e.isInput = false ∧ b.Out[e.port]? = some none)) := by
  unfold checkBlock at h
  rcases h1 : b.In.findIdx? Option.isNone with _ | k <;> rw [h1] at h
  · rcases h2 : b.Out.findIdx? Option.isNone with _ | k2 <;> rw [h2] at h
    · cases h
    · cases h
      rw [List.findIdx?_eq_some_iff_getElem] at h2
      obtain ⟨hk, hp, -⟩ := h2
      rw [Option.isNone_iff_eq_none] at hp
      refine ⟨rfl, Or.inr ⟨rfl, ?_⟩⟩
      simpa [List.getElem?_eq_getElem hk] using congrArg some hp
  · cases h
    rw [List.findIdx?_eq_some_iff_getElem] at h1
    obtain ⟨hk, hp, -⟩ := h1
    rw [Option.isNone_iff_eq_none] at hp
    refine ⟨rfl, Or.inl ⟨rfl, ?_⟩⟩
    simpa [List.getElem?_eq_getElem hk] using congrArg some hp

theorem checkFrom_eq_some_spec (bs : List IOBlock) : ∀ (i : Nat) (e : CheckErr),
    checkFrom i bs = some e →
    ∃ j b, bs[j]? = some b ∧ e.block = i + j ∧ checkBlock e.block b = some e := by
  induction bs with
  | nil => intro i e h; cases h
  | cons b rest ih =>
    intro i e h
    rw [checkFrom] at h
    rcases hc : checkBlock i b with _ | e0 <;> rw [hc] at h
    · obtain ⟨j, b0, hj, hblock, hcb⟩ := ih (i+1) e h
      exact ⟨j+1, b0, by simpa using hj, by omega, hcb⟩
    · injection h with h1
      subst h1
      have hbl := (checkBlock_eq_some_spec i b _ hc).1
      exact ⟨0, b, by simp, by omega, by rwa [hbl]⟩

/-- The full characterization of `check` succeeding. -/
theorem check_eq_none_iff (s : System) :
    s.check = none ↔
      ∀ b ∈ s.blocks, (∀ e ∈ b.In, e.isSome) ∧ (∀ e ∈ b.Out, e.isSome) :=
  checkFrom_eq_none_iff s.blocks 0

/-- C3: `check` returns nil exactly when every input and output port of
every registered block is bound to an edge; otherwise its error names an
actually-offending block index and port index, and `Start` returns that
error with an empty event trace — no worker spawned, no IC sent, no other
observable effect. -/
theorem check_validation_spec (s : System) :
    (s.check = none ↔
      ∀ b ∈ s.blocks, (∀ e ∈ b.In, e.isSome) ∧ (∀ e ∈ b.Out, e.isSome))
    ∧ (∀ e : CheckErr, s.check = some e →
        ∃ b, s.blocks[e.block]? = some b ∧
          ((e.isInput = true ∧ b.In[e.port]? = some none) ∨
           (e.isInput = false ∧ b.Out[e.port]? = some none)))
    ∧ (∀ e : CheckErr, s.check = some e →
        s.Start = (StartResult.configErr e, [])) := by
  refine ⟨check_eq_none_iff s, ?_, ?_⟩
  · intro e h
    obtain ⟨j, b, hj, hblock, hcb⟩ := checkFrom_eq_some_spec s.blocks 0 e h
    refine ⟨b, ?_, (checkBlock_eq_some_spec e.block b e hcb).2⟩
    rwa [hblock, Nat.zero_add]
  · intro e h
    simp [System.Start, System.check] at h ⊢
    rw [h]

/-- Witness for C3 at the one-block system whose single input port is
unconnected. -/
theorem check_validation_spec_witness :
    (∃ b, (freshSystem.Add ⟨1, 0⟩).blocks[(⟨0, 0, true⟩ : CheckErr).block]? = some b ∧
      (((⟨0, 0, true⟩ : CheckErr).isInput = true ∧
          b.In[(⟨0, 0, true⟩ : CheckErr).port]? = some none) ∨
       ((⟨0, 0, true⟩ : CheckErr).isInput = false ∧
          b.Out[(⟨0, 0, true⟩ : CheckErr).port]? = some none)))
    ∧ (freshSystem.Add ⟨1, 0⟩).Start = (StartResult.configErr ⟨0, 0, true⟩, []) :=
  ⟨(check_validation_spec (freshSystem.Add ⟨1, 0⟩)).2.1 ⟨0, 0, true⟩ rfl,
   (check_validation_spec (freshSystem.Add ⟨1, 0⟩)).2.2 ⟨0, 0, true⟩ rfl⟩

/-- C9: `Add` appends exactly one entry whose `In`/`Out` slices have the
declared arities with every element nil, leaves everything else unchanged,
and a freshly added block with at least one port makes validation fail. -/
theorem Add_appends_unbound_block (s : System) (b : BlockArity) :
    (s.Add b).blocks = s.blocks ++
      [⟨b, List.replicate b.inputsN none, List.replicate b.outputsN none⟩]
    ∧ (s.Add b).In = s.In ∧ (s.Add b).Out = s.Out
    ∧ (s.Add b).initials = s.initials
    ∧ (s.Add b).initialized = s.initialized
    ∧ (0 < b.inputsN ∨ 0 < b.outputsN → ((s.Add b).check).isSome) := by
  refine ⟨rfl, rfl, rfl, rfl, rfl, ?_⟩
  intro hpos
  rcases hc : (s.Add b).check with _ | e
  · exfalso
    have hall := (check_eq_none_iff (s.Add b)).1 hc
    have hmem : (⟨b, List.replicate b.inputsN none, List.replicate b.outputsN none⟩ :
        IOBlock) ∈ (s.Add b).blocks := by
      simp [System.Add]
    have hb := hall _ hmem
    rcases hpos with hin | hout
    · have := hb.1 none (by simp [List.mem_replicate]; omega)
      simp at this
    · have := hb.2 none (by simp [List.mem_replicate]; omega)
      simp at this
  · simp

/-- Witness for C9 at a concrete 1-in/1-out block. -/
theorem Add_appends_unbound_block_witness :
    (freshSystem.Add ⟨1, 1⟩).blocks = freshSystem.blocks ++
      [⟨⟨1, 1⟩, List.replicate 1 none, List.replicate 1 none⟩]
    ∧ ((freshSystem.Add ⟨1, 1⟩).check).isSome :=
  ⟨(Add_appends_unbound_block freshSystem ⟨1, 1⟩).1,
   (Add_appends_unbound_block freshSystem ⟨1, 1⟩).2.2.2.2.2 (Or.inl Nat.one_pos)⟩

/-! ## Helper lemmas about IC delivery -/

theorem icDeliver_eq_map (s : System) : ∀ ics : List IC,
    (∀ ic ∈ ics, (inPort s ic.block ic.input).isSome) →
    icDeliver s ics =
      some (ics.map fun ic => SEvent.icSend ic.block ic.input ic.value) := by
  intro ics
  induction ics with
  | nil => intro _; rfl
  | cons ic rest ih =>
    intro h
    have hhd := h ic (by simp)
    have htl := ih fun x hx => h x (by simp [hx])
    rcases hb : getI? s.blocks ic.block with _ | blk
    · rw [inPort, hb] at hhd; simp at hhd
    · rcases hin : getI? blk.In ic.input with _ | ed
      · rw [inPort, hb] at hhd; simp [hin] at hhd
      · simp [icDeliver, hb, hin, htl]

theorem icDeliver_eq_none (s : System) : ∀ ics : List IC,
    (∃ ic ∈ ics, inPort s ic.block ic.input = none) →
    icDeliver s ics = none := by
  intro ics
  induction ics with
  | nil => rintro ⟨ic, h, -⟩; cases h
  | cons a rest ih =>
    rintro ⟨ic, hmem, hbad⟩
    rcases List.mem_cons.1 hmem with rfl | htl
    · rw [inPort] at hbad
      rcases hb : getI? s.blocks ic.block with _ | blk
      · simp [icDeliver, hb]
      · rw [hb] at hbad
        simp only [Option.some_bind] at hbad
        simp [icDeliver, hb, hbad]
    · rcases hb : getI? s.blocks a.block with _ | blk
      · simp [icDeliver, hb]
      · rcases hin : getI? blk.In a.input with _ | ed
        · simp [icDeliver, hb, hin]
        · simp [icDeliver, hb, hin, ih ⟨ic, htl, hbad⟩]

/-- C2: when validation succeeds (and the recorded ICs address existing
edges, which `check` does not verify — in-range indices are the caller's
obligation, cf. `Connect`/`AddIC` below), `Start` spawns one worker per
registered block in block order, then performs the IC sends in recording
order, then blocks for exactly one termination notification and returns
nil. -/
theorem Start_phase_order (s : System) (hck : s.check = none)
    (hic : ∀ ic ∈ s.initials, (inPort s ic.block ic.input).isSome) :
    s.Start = (StartResult.retNil,
      ((List.range s.blocks.length).map SEvent.spawn)
        ++ (s.initials.map fun ic => SEvent.icSend ic.block ic.input ic.value)
        ++ [SEvent.waitDone]) := by
  rw [System.Start, hck, icDeliver_eq_map s s.initials hic]

/-- Witness for C2: a single self-connected block with one IC. -/
theorem Start_phase_order_witness :
    (⟨[], [], [⟨⟨1, 1⟩, [some 0], [some 0]⟩], [⟨1, 0, 0⟩], false⟩ : System).Start =
      (StartResult.retNil,
        [SEvent.spawn 0, SEvent.icSend 0 0 1, SEvent.waitDone]) := by
  have h := Start_phase_order
    ⟨[], [], [⟨⟨1, 1⟩, [some 0], [some 0]⟩], [⟨1, 0, 0⟩], false⟩ rfl
    (by intro ic hic
        simp only [List.mem_singleton] at hic
        subst hic
        rfl)
  simpa using h

/-- C10: neither `Connect` nor `AddIC` nor the IC delivery loop of `Start`
range-checks block or port indices. `AddIC` records any indices
unconditionally; `Connect` with a (nonnegative) destination block index
out of range, or an input port index at or beyond the block's `In` length,
hits the unguarded indexing (the panic branch `none`) instead of returning
an error; and a recorded IC whose target indexing fails makes `Start`
panic in the delivery loop. -/
theorem no_range_checking :
    (∀ (s : System) (x : Val) (dst i : Int),
        s.AddIC x dst i = { s with initials := s.initials ++ [⟨x, dst, i⟩] })
    ∧ (∀ (s : System) (src dst o i : Int) (c : Nat), 0 ≤ i →
        getI? s.blocks dst = none → s.Connect src dst o i c = none)
    ∧ (∀ (s : System) (src dst o i : Int) (c : Nat) (bd : IOBlock), 0 ≤ i →
        getI? s.blocks dst = some bd → bd.In.length ≤ i.toNat →
        s.Connect src dst o i c = none)
    ∧ (∀ s : System, s.check = none →
        (∃ ic ∈ s.initials, inPort s ic.block ic.input = none) →
        (s.Start).1 = StartResult.panicked) := by
  refine ⟨fun s x dst i => rfl, ?_, ?_, ?_⟩
  · intro s src dst o i c hi hdst
    have hneg : ¬ i < 0 := by omega
    simp [System.Connect, connectDst, hneg, hdst]
  · intro s src dst o i c bd hi hdst hlen
    have hneg : ¬ i < 0 := by omega
    have hset : setI? bd.In i (some c) = none := by
      simp only [setI?, ite_eq_right_iff]
      intro hc
      omega
    simp [System.Connect, connectDst, hneg, hdst, hset]
  · intro s hck hbad
    rw [System.Start, hck, icDeliver_eq_none s s.initials hbad]

/-- Witness for C10: `AddIC` happily records block index 5 on an empty
system; `Connect` panics on the empty system; and `Start` panics for a
checked system whose IC targets block 5 of 1. -/
theorem no_range_checking_witness :
    freshSystem.AddIC 1 5 7 =
      { freshSystem with initials := freshSystem.initials ++ [⟨1, 5, 7⟩] }
    ∧ freshSystem.Connect 0 0 0 0 0 = none
    ∧ ((⟨[], [], [⟨⟨1, 1⟩, [some 0], [some 0]⟩], [⟨1, 5, 0⟩], false⟩ : System).Start).1 =
        StartResult.panicked :=
  ⟨no_range_checking.1 freshSystem 1 5 7,
   no_range_checking.2.1 freshSystem 0 0 0 0 0 (by omega) rfl,
   no_range_checking.2.2.2 ⟨[], [], [⟨⟨1, 1⟩, [some 0], [some 0]⟩], [⟨1, 5, 0⟩], false⟩
     rfl ⟨⟨1, 5, 0⟩, by simp, rfl⟩⟩

/-! ## Indexing helper lemmas -/

theorem getI?_eq_some {α : Type} {l : List α} {i : Int} (h0 : 0 ≤ i)
    (hl : i.toNat < l.length) : getI? l i = some (l.get ⟨i.toNat, hl⟩) := by
  simp [getI?, h0, List.getElem?_eq_getElem hl]

theorem setI?_eq_some {α : Type} {l : List α} {i : Int} (a : α) (h0 : 0 ≤ i)
    (hl : i.toNat < l.length) : setI? l i a = some (l.set i.toNat a) := by
  simp [setI?, h0, hl]

theorem set_get_same {α : Type} (l : List α) (n : Nat) (h : n < l.length) :
    l.set n (l.get ⟨n, h⟩) = l := by
  apply List.ext_getElem?
  intro j
  rw [List.getElem?_set]
  split
  · next heq =>
    subst heq
    simp [List.getElem?_eq_getElem h, h]
  · rfl

/-- C4 (code-bug evidence): `Inputs`/`Outputs` do report the boundary-port
counts, but `Step` leaves the state unchanged — in particular neither
`Step` nor `Start` ever sets `initialized` — and invokes `Start` whenever
`initialized` is false.  Hence on a fresh system both the first and the
second `Step` invocation start it, contradicting "exactly once". -/
theorem Step_starts_on_every_call :
    (∀ s : System, s.Inputs = s.In.length ∧ s.Outputs = s.Out.length
      ∧ (s.Step).1 = s ∧ (s.Step).2 = !s.initialized)
    ∧ (freshSystem.Step).2 = true
    ∧ ((freshSystem.Step).1.Step).2 = true := by
  refine ⟨fun s => ⟨rfl, rfl, ?_, ?_⟩, rfl, rfl⟩ <;>
    by_cases h : s.initialized <;> simp [System.Step, h]

/-- C6: an integrator seeded with `x0` keeps output `x0` on a zero input
stream; on a constant input `c` its state after `n` steps — and hence the
output of the `n`-th step (`n ≥ 1`) — is `x0 + n·c·dt`. -/
theorem Integrate_zero_and_constant (dt x0 c : Val) :
    (∀ n : Nat, IntegrateRun dt x0 (fun _ => (0 : Val)) n = x0)
    ∧ (∀ n : Nat, IntegrateRun dt x0 (fun _ => c) n = x0 + n * c * dt)
    ∧ (∀ n : Nat, 1 ≤ n →
        (IntegrateStep dt (IntegrateRun dt x0 (fun _ => c) (n-1)) c).2 =
          x0 + n * c * dt) := by
  have hz : ∀ n : Nat, IntegrateRun dt x0 (fun _ => (0 : Val)) n = x0 := by
    intro n
    induction n with
    | zero => rfl
    | succ n ih => simp [IntegrateRun, IntegrateStep, ih]
  have hc : ∀ n : Nat, IntegrateRun dt x0 (fun _ => c) n = x0 + n * c * dt := by
    intro n
    induction n with
    | zero => simp [IntegrateRun]
    | succ n ih =>
      rw [IntegrateRun, ih, IntegrateStep]
      push_cast
      ring
  refine ⟨hz, hc, ?_⟩
  intro n hn
  rw [IntegrateStep, hc (n-1)]
  have : ((n - 1 : Nat) : Val) = (n : Val) - 1 := by
    push_cast [Nat.cast_sub hn]
    ring
  rw [this]
  ring

/-- Witness for C6 at `dt = 1/2`, `x0 = 3`, `c = 2`, `n = 2`. -/
theorem Integrate_zero_and_constant_witness :
    IntegrateRun ((1 : Val)/2) 3 (fun _ => (0 : Val)) 2 = 3
    ∧ IntegrateRun ((1 : Val)/2) 3 (fun _ => (2 : Val)) 2 =
        3 + (2 : Nat) * 2 * ((1 : Val)/2)
    ∧ (IntegrateStep ((1 : Val)/2)
        (IntegrateRun ((1 : Val)/2) 3 (fun _ => (2 : Val)) (2-1)) 2).2 =
        3 + (2 : Nat) * 2 * ((1 : Val)/2) :=
  ⟨(Integrate_zero_and_constant ((1 : Val)/2) 3 2).1 2,
   (Integrate_zero_and_constant ((1 : Val)/2) 3 2).2.1 2,
   (Integrate_zero_and_constant ((1 : Val)/2) 3 2).2.2 2 (by omega)⟩

/-! ## The `Stop` block -/

theorem StopStep_fst (dt : Val) (s : StopBlock) (x : Val) :
    (StopStep dt s x).1 = { s with t := s.t + dt } := by
  rw [StopStep]
  split <;> rfl

theorem StopRun_state (dt T : Val) (cbs : List Nat) (u : Nat → Val) :
    ∀ n : Nat, StopRun dt ⟨T, cbs, 0⟩ u n = ⟨T, cbs, n * dt⟩ := by
  intro n
  induction n with
  | zero => simp [StopRun]
  | succ n ih =>
    rw [StopRun, ih, StopStep_fst]
    push_cast
    ring_nf

/-- C5: for `T > 0`, `dt > 0`, the `Stop` block seeded at `t = 0` copies
its input to its output, invokes no callback and signals continue on each
of the first `⌈T/dt⌉ - 1` steps, and on step `⌈T/dt⌉` (which exists:
`⌈T/dt⌉ ≥ 1`) invokes all registered callbacks exactly once in
registration order, writes no output and signals stop. -/
theorem Stop_halts_after_ceil_steps (T dt : Val) (cbs : List Nat) (u : Nat → Val)
    (hT : 0 < T) (hdt : 0 < dt) :
    1 ≤ ⌈T / dt⌉₊
    ∧ (∀ k : Nat, 1 ≤ k → k < ⌈T / dt⌉₊ →
        StopStep dt (StopRun dt ⟨T, cbs, 0⟩ u (k-1)) (u (k-1)) =
          (⟨T, cbs, k * dt⟩, [], some (u (k-1))))
    ∧ StopStep dt (StopRun dt ⟨T, cbs, 0⟩ u (⌈T / dt⌉₊ - 1)) (u (⌈T / dt⌉₊ - 1)) =
        (⟨T, cbs, (⌈T / dt⌉₊ : Val) * dt⟩, cbs, none) := by
  have hN : 1 ≤ ⌈T / dt⌉₊ := Nat.one_le_iff_ne_zero.2 (by
    have : 0 < ⌈T / dt⌉₊ := Nat.ceil_pos.2 (div_pos hT hdt)
    omega)
  have hstep : ∀ k : Nat, 1 ≤ k →
      StopStep dt (StopRun dt ⟨T, cbs, 0⟩ u (k-1)) (u (k-1)) =
        if T ≤ (k : Val) * dt then (⟨T, cbs, k * dt⟩, cbs, none)
        else (⟨T, cbs, k * dt⟩, [], some (u (k-1))) := by
    intro k hk
    rw [StopRun_state, StopStep]
    have hcast : ((k - 1 : Nat) : Val) = (k : Val) - 1 := by
      push_cast [Nat.cast_sub hk]
      ring
    have ht : ((k - 1 : Nat) : Val) * dt + dt = (k : Val) * dt := by
      rw [hcast]; ring
    rw [ht]
  refine ⟨hN, ?_, ?_⟩
  · intro k hk hlt
    rw [hstep k hk, if_neg ?_]
    have hklt : (k : Val) < T / dt := by
      by_contra hge
      exact absurd (Nat.ceil_le.2 (not_lt.1 hge)) (by omega)
    have := (lt_div_iff₀ hdt).1 hklt
    exact not_le.2 this
  · rw [hstep _ hN, if_pos ?_]
    have hle : T / dt ≤ (⌈T / dt⌉₊ : Val) := Nat.le_ceil _
    exact (div_le_iff₀ hdt).1 hle

/-- Witness for C5 at `T = 1`, `dt = 1/2` (so `⌈T/dt⌉ = 2` steps),
callbacks `[7, 8]`, constant input 9. -/
theorem Stop_halts_after_ceil_steps_witness :
    1 ≤ ⌈(1 : Val) / ((1 : Val)/2)⌉₊
    ∧ StopStep ((1 : Val)/2) (StopRun ((1 : Val)/2) ⟨1, [7, 8], 0⟩ (fun _ => 9) (1-1))
        ((fun _ => (9 : Val)) (1-1)) =
        (⟨1, [7, 8], 1 * ((1 : Val)/2)⟩, [], some ((fun _ => (9 : Val)) (1-1)))
    ∧ StopStep ((1 : Val)/2)
        (StopRun ((1 : Val)/2) ⟨1, [7, 8], 0⟩ (fun _ => 9) (⌈(1 : Val) / ((1 : Val)/2)⌉₊ - 1))
        ((fun _ => (9 : Val)) (⌈(1 : Val) / ((1 : Val)/2)⌉₊ - 1)) =
        (⟨1, [7, 8], (⌈(1 : Val) / ((1 : Val)/2)⌉₊ : Val) * ((1 : Val)/2)⟩, [7, 8], none) := by
  have hc : ⌈(1 : Val) / ((1 : Val)/2)⌉₊ = 2 := by norm_num
  have h := Stop_halts_after_ceil_steps 1 ((1 : Val)/2) [7, 8] (fun _ => 9)
    (by norm_num) (by norm_num)
  exact ⟨h.1, h.2.1 1 le_rfl (by rw [hc]; omega), h.2.2⟩

/-! ## The worker goroutine's cycle -/

theorem recvPhase_all_some : ∀ (xs : List Val) (i : Nat),
    recvPhase i (xs.map some) =
      ((List.enumFrom i xs).map fun p => WEvent.recvOk p.1 p.2, some xs) := by
  intro xs
  induction xs with
  | nil => intro i; rfl
  | cons v rest ih =>
    intro i
    simp [recvPhase, ih (i+1)]

theorem recvPhase_closed : ∀ (pre : List Val) (post : List (Option Val)) (i : Nat),
    recvPhase i (pre.map some ++ none :: post) =
      (((List.enumFrom i pre).map fun p => WEvent.recvOk p.1 p.2)
        ++ [WEvent.recvClosed (i + pre.length)], none) := by
  intro pre
  induction pre with
  | nil => intro post i; simp [recvPhase]
  | cons v rest ih =>
    intro post i
    simp only [List.map_cons, List.cons_append, recvPhase, List.append_eq,
      ih post (i+1), List.enumFrom_cons, Option.map_none', List.length_cons]
    have h : i + 1 + rest.length = i + (rest.length + 1) := by omega
    rw [h]

/-- C1: one iteration of the worker spawned for a block.  When every input
edge yields a value, the trace is the receives on ports `0, 1, …` in
ascending order, then exactly one `Step` call on the received values, then
— if `Step` said stop — a single `done` notification and exit with no
output written, or — if it said continue — exactly one send per output
port in ascending order.  When an input edge is found closed, the worker
exits after the receives up to that port, with no `Step` call and no
`done` notification, so the rest of the system is not halted. -/
theorem worker_cycle_trace (step : List Val → Option (List Val)) :
    (∀ xs : List Val, step xs = none →
        workerIteration (xs.map some) step =
          ((xs.enum.map fun p => WEvent.recvOk p.1 p.2)
            ++ [WEvent.stepCall xs, WEvent.doneSend], WOutcome.exitStop))
    ∧ (∀ (xs ys : List Val), step xs = some ys →
        workerIteration (xs.map some) step =
          ((xs.enum.map fun p => WEvent.recvOk p.1 p.2)
            ++ [WEvent.stepCall xs]
            ++ (ys.enum.map fun p => WEvent.send p.1 p.2), WOutcome.continued))
    ∧ (∀ (pre : List Val) (post : List (Option Val)),
        workerIteration (pre.map some ++ none :: post) step =
          ((pre.enum.map fun p => WEvent.recvOk p.1 p.2)
            ++ [WEvent.recvClosed pre.length], WOutcome.exitClosed)) := by
  refine ⟨?_, ?_, ?_⟩
  · intro xs hstop
    simp [workerIteration, recvPhase_all_some xs 0, hstop, List.enum]
  · intro xs ys hcont
    simp [workerIteration, recvPhase_all_some xs 0, hcont, List.enum]
  · intro pre post
    simp [workerIteration, recvPhase_closed pre post 0, List.enum]

/-- Witness for C1 with the block that stops on an empty input list and
otherwise echoes its inputs. -/
theorem worker_cycle_trace_witness :
    workerIteration [] (fun xs => if xs = [] then none else some xs) =
      ([WEvent.stepCall [], WEvent.doneSend], WOutcome.exitStop)
    ∧ workerIteration [some 5] (fun xs => if xs = [] then none else some xs) =
      ([WEvent.recvOk 0 5, WEvent.stepCall [5], WEvent.send 0 5], WOutcome.continued)
    ∧ workerIteration [some 4, none] (fun xs => if xs = [] then none else some xs) =
      ([WEvent.recvOk 0 4, WEvent.recvClosed 1], WOutcome.exitClosed) := by
  refine ⟨?_, ?_, ?_⟩
  · have h := (worker_cycle_trace (fun xs => if xs = [] then none else some xs)).1 [] rfl
    simpa using h
  · have h := (worker_cycle_trace (fun xs => if xs = [] then none else some xs)).2.1
      [5] [5] (by norm_num)
    simpa using h
  · have h := (worker_cycle_trace (fun xs => if xs = [] then none else some xs)).2.2
      [4] []
    simpa using h

/-! ## `Connect` helper lemmas -/

theorem getI?_map {β : Type} (f : IOBlock → β) (l : List IOBlock) (j : Int) :
    (getI? l j).map f = getI? (l.map f) j := by
  unfold getI?
  by_cases h0 : 0 ≤ j
  · simp [h0, List.getElem?_map]
  · simp [h0]

theorem getI?_set_self_toNat {α : Type} {l : List α} {j : Int} (a : α)
    (h0 : 0 ≤ j) (hl : j.toNat < l.length) :
    getI? (l.set j.toNat a) j = some a := by
  simp [getI?, h0, List.getElem?_set_self hl]

theorem getI?_set_other {α : Type} (l : List α) (n : Nat) (a : α) (j : Int)
    (h : j.toNat ≠ n ∨ j < 0) : getI? (l.set n a) j = getI? l j := by
  unfold getI?
  by_cases h0 : 0 ≤ j
  · have hne : n ≠ j.toNat := by omega
    simp [h0, List.getElem?_set_ne hne]
  · simp [h0]

theorem map_set_preserve {α β : Type} (l : List α) (n : Nat) (h : n < l.length)
    (f : α → β) (a : α) (hf : f a = f (l.get ⟨n, h⟩)) :
    (l.set n a).map f = l.map f := by
  rw [List.map_set, hf]
  have hl : n < (l.map f).length := by simpa using h
  have hg : f (l.get ⟨n, h⟩) = (l.map f).get ⟨n, hl⟩ := by simp
  rw [hg, set_get_same]

theorem inPort_rep (s : System) (b p : Int) :
    inPort s b p = (getI? (s.blocks.map IOBlock.In) b).bind fun l => getI? l p := by
  rw [inPort, ← getI?_map]
  rcases getI? s.blocks b with _ | blk <;> rfl

theorem outPort_rep (s : System) (b p : Int) :
    outPort s b p = (getI? (s.blocks.map IOBlock.Out) b).bind fun l => getI? l p := by
  rw [outPort, ← getI?_map]
  rcases getI? s.blocks b with _ | blk <;> rfl

theorem connectDst_spec (s : System) (dst i : Int) (c : Nat)
    (hd0 : 0 ≤ dst) (hdl : dst.toNat < s.blocks.length)
    (hi0 : 0 ≤ i) (hil : i.toNat < (s.blocks.get ⟨dst.toNat, hdl⟩).In.length) :
    connectDst s dst i c = some
      { s with blocks := (s.blocks.set dst.toNat
          { s.blocks.get ⟨dst.toNat, hdl⟩ with
              In := (s.blocks.get ⟨dst.toNat, hdl⟩).In.set i.toNat (some c) }) } := by
  rw [connectDst, if_neg (by omega : ¬ i < 0)]
  rw [getI?_eq_some hd0 hdl]
  simp only [Option.bind_eq_bind, Option.some_bind]
  rw [setI?_eq_some _ hi0 hil]
  simp only [Option.some_bind]
  rw [setI?_eq_some _ hd0 hdl]
  rfl

theorem connectSrc_spec (s : System) (src o : Int) (c : Nat)
    (hs0 : 0 ≤ src) (hsl : src.toNat < s.blocks.length)
    (ho0 : 0 ≤ o) (hol : o.toNat < (s.blocks.get ⟨src.toNat, hsl⟩).Out.length) :
    connectSrc s src o c = some
      { s with blocks := (s.blocks.set src.toNat
          { s.blocks.get ⟨src.toNat, hsl⟩ with
              Out := (s.blocks.get ⟨src.toNat, hsl⟩).Out.set o.toNat (some c) }) } := by
  rw [connectSrc, if_neg (by omega : ¬ o < 0)]
  rw [getI?_eq_some hs0 hsl]
  simp only [Option.bind_eq_bind, Option.some_bind]
  rw [setI?_eq_some _ ho0 hol]
  simp only [Option.some_bind]
  rw [setI?_eq_some _ hs0 hsl]
  rfl

theorem connectDst_neg (s : System) (dst i : Int) (c : Nat)
    (hi : i < 0) (hl : (-i-1).toNat < s.Out.length) :
    connectDst s dst i c = some { s with Out := s.Out.set (-i-1).toNat (some c) } := by
  rw [connectDst, if_pos hi, setI?_eq_some _ (by omega) hl]
  rfl

theorem connectSrc_neg (s : System) (src o : Int) (c : Nat)
    (ho : o < 0) (hl : (-o-1).toNat < s.In.length) :
    connectSrc s src o c = some { s with In := s.In.set (-o-1).toNat (some c) } := by
  rw [connectSrc, if_pos ho, setI?_eq_some _ (by omega) hl]
  rfl

theorem connectDst_props (s : System) (dst i : Int) (c : Nat)
    (hd0 : 0 ≤ dst) (hdl : dst.toNat < s.blocks.length)
    (hi0 : 0 ≤ i) (hil : i.toNat < (s.blocks.get ⟨dst.toNat, hdl⟩).In.length) :
    ∃ s1, connectDst s dst i c = some s1
      ∧ inPort s1 dst i = some (some c)
      ∧ (∀ b p : Int, ¬(b = dst ∧ p = i) → inPort s1 b p = inPort s b p)
      ∧ s1.blocks.map IOBlock.Out = s.blocks.map IOBlock.Out
      ∧ s1.blocks.map IOBlock.block = s.blocks.map IOBlock.block
      ∧ s1.In = s.In ∧ s1.Out = s.Out ∧ s1.initials = s.initials
      ∧ s1.initialized = s.initialized
      ∧ s1.blocks.length = s.blocks.length := by
  refine ⟨_, connectDst_spec s dst i c hd0 hdl hi0 hil,
    ?_, ?_, ?_, ?_, rfl, rfl, rfl, rfl, by simp⟩
  · rw [inPort_rep]
    simp only [List.map_set]
    rw [getI?_set_self_toNat _ hd0 (by simpa using hdl)]
    simp only [Option.some_bind]
    exact getI?_set_self_toNat _ hi0 hil
  · intro b p hbp
    rw [inPort_rep, inPort_rep]
    simp only [List.map_set]
    by_cases hb0 : 0 ≤ b
    · by_cases hbdeq : b = dst
      · subst hbdeq
        have hpi : p ≠ i := fun hp => hbp ⟨rfl, hp⟩
        rw [getI?_set_self_toNat _ hd0 (by simpa using hdl)]
        have hrhs : getI? (s.blocks.map IOBlock.In) b =
            some ((s.blocks.get ⟨b.toNat, hdl⟩).In) := by
          rw [getI?_eq_some hd0 (by simpa using hdl)]
          simp
        rw [hrhs]
        simp only [Option.some_bind]
        exact getI?_set_other _ _ _ _ (by omega)
      · rw [getI?_set_other _ _ _ _ (by omega)]
    · rw [getI?_set_other _ _ _ _ (by omega)]
  · exact map_set_preserve s.blocks dst.toNat hdl IOBlock.Out _ rfl
  · exact map_set_preserve s.blocks dst.toNat hdl IOBlock.block _ rfl

theorem connectSrc_props (s : System) (src o : Int) (c : Nat)
    (hs0 : 0 ≤ src) (hsl : src.toNat < s.blocks.length)
    (ho0 : 0 ≤ o) (hol : o.toNat < (s.blocks.get ⟨src.toNat, hsl⟩).Out.length) :
    ∃ s2, connectSrc s src o c = some s2
      ∧ outPort s2 src o = some (some c)
      ∧ (∀ b p : Int, ¬(b = src ∧ p = o) → outPort s2 b p = outPort s b p)
      ∧ s2.blocks.map IOBlock.In = s.blocks.map IOBlock.In
      ∧ s2.blocks.map IOBlock.block = s.blocks.map IOBlock.block
      ∧ s2.In = s.In ∧ s2.Out = s.Out ∧ s2.initials = s.initials
      ∧ s2.initialized = s.initialized
      ∧ s2.blocks.length = s.blocks.length := by
  refine ⟨_, connectSrc_spec s src o c hs0 hsl ho0 hol,
    ?_, ?_, ?_, ?_, rfl, rfl, rfl, rfl, by simp⟩
  · rw [outPort_rep]
    simp only [List.map_set]
    rw [getI?_set_self_toNat _ hs0 (by simpa using hsl)]
    simp only [Option.some_bind]
    exact getI?_set_self_toNat _ ho0 hol
  · intro b p hbp
    rw [outPort_rep, outPort_rep]
    simp only [List.map_set]
    by_cases hb0 : 0 ≤ b
    · by_cases hbseq : b = src
      · subst hbseq
        have hpo : p ≠ o := fun hp => hbp ⟨rfl, hp⟩
        rw [getI?_set_self_toNat _ hs0 (by simpa using hsl)]
        have hrhs : getI? (s.blocks.map IOBlock.Out) b =
            some ((s.blocks.get ⟨b.toNat, hsl⟩).Out) := by
          rw [getI?_eq_some hs0 (by simpa using hsl)]
          simp
        rw [hrhs]
        simp only [Option.some_bind]
        exact getI?_set_other _ _ _ _ (by omega)
      · rw [getI?_set_other _ _ _ _ (by omega)]
    · rw [getI?_set_other _ _ _ _ (by omega)]
  · exact map_set_preserve s.blocks src.toNat hsl IOBlock.In _ rfl
  · exact map_set_preserve s.blocks src.toNat hsl IOBlock.block _ rfl

/-- C7: with in-range indices, `Connect` binds the one fresh edge `c` as
`blocks[dst].In[i]` and `blocks[src].Out[o]` (overwriting whatever was
there), leaves every other port binding, the boundary arrays, the block
list (length and underlying blocks) and the IC list unchanged; a negative
input (resp. output) port index instead binds the container's own `Out`
(resp. `In`) boundary slot `-idx-1`. -/
theorem Connect_binds_fresh_edge :
    (∀ (s : System) (src dst o i : Int) (c : Nat)
      (hd0 : 0 ≤ dst) (hdl : dst.toNat < s.blocks.length)
      (hi0 : 0 ≤ i) (hil : i.toNat < (s.blocks.get ⟨dst.toNat, hdl⟩).In.length)
      (hs0 : 0 ≤ src) (hsl : src.toNat < s.blocks.length)
      (ho0 : 0 ≤ o) (hol : o.toNat < (s.blocks.get ⟨src.toNat, hsl⟩).Out.length),
      ∃ s2, s.Connect src dst o i c = some s2
        ∧ inPort s2 dst i = some (some c)
        ∧ outPort s2 src o = some (some c)
        ∧ (∀ b p : Int, ¬(b = dst ∧ p = i) → inPort s2 b p = inPort s b p)
        ∧ (∀ b p : Int, ¬(b = src ∧ p = o) → outPort s2 b p = outPort s b p)
        ∧ s2.In = s.In ∧ s2.Out = s.Out
        ∧ s2.initials = s.initials ∧ s2.initialized = s.initialized
        ∧ s2.blocks.length = s.blocks.length
        ∧ (∀ j : Int, (getI? s2.blocks j).map IOBlock.block =
            (getI? s.blocks j).map IOBlock.block))
    ∧ (∀ (s : System) (src dst o i : Int) (c : Nat)
      (hi : i < 0) (hb : (-i-1).toNat < s.Out.length)
      (hs0 : 0 ≤ src) (hsl : src.toNat < s.blocks.length)
      (ho0 : 0 ≤ o) (hol : o.toNat < (s.blocks.get ⟨src.toNat, hsl⟩).Out.length),
      ∃ s2, s.Connect src dst o i c = some s2
        ∧ s2.Out[(-i-1).toNat]? = some (some c)
        ∧ outPort s2 src o = some (some c)
        ∧ (∀ b p : Int, ¬(b = src ∧ p = o) → outPort s2 b p = outPort s b p)
        ∧ (∀ b p : Int, inPort s2 b p = inPort s b p)
        ∧ s2.In = s.In ∧ s2.initials = s.initials
        ∧ s2.blocks.length = s.blocks.length)
    ∧ (∀ (s : System) (src dst o i : Int) (c : Nat)
      (ho : o < 0) (hb : (-o-1).toNat < s.In.length)
      (hd0 : 0 ≤ dst) (hdl : dst.toNat < s.blocks.length)
      (hi0 : 0 ≤ i) (hil : i.toNat < (s.blocks.get ⟨dst.toNat, hdl⟩).In.length),
      ∃ s2, s.Connect src dst o i c = some s2
        ∧ s2.In[(-o-1).toNat]? = some (some c)
        ∧ inPort s2 dst i = some (some c)
        ∧ (∀ b p : Int, ¬(b = dst ∧ p = i) → inPort s2 b p = inPort s b p)
        ∧ (∀ b p : Int, outPort s2 b p = outPort s b p)
        ∧ s2.Out = s.Out ∧ s2.initials = s.initials
        ∧ s2.blocks.length = s.blocks.length) := by
  refine ⟨?_, ?_, ?_⟩
  · intro s src dst o i c hd0 hdl hi0 hil hs0 hsl ho0 hol
    obtain ⟨s1, he1, hin1, hfr1, hmo1, hmb1, hIn1, hOut1, hini1, hzd1, hlen1⟩ :=
      connectDst_props s dst i c hd0 hdl hi0 hil
    have hsl1 : src.toNat < s1.blocks.length := by rw [hlen1]; exact hsl
    have houtEq : (s1.blocks.get ⟨src.toNat, hsl1⟩).Out =
        (s.blocks.get ⟨src.toNat, hsl⟩).Out := by
      have e1 : (s1.blocks.map IOBlock.Out)[src.toNat]? =
          (s.blocks.map IOBlock.Out)[src.toNat]? := by rw [hmo1]
      rw [List.getElem?_map, List.getElem?_map,
        List.getElem?_eq_getElem hsl1, List.getElem?_eq_getElem hsl] at e1
      simpa using e1
    have hol1 : o.toNat < (s1.blocks.get ⟨src.toNat, hsl1⟩).Out.length := by
      rw [houtEq]; exact hol
    obtain ⟨s2, he2, hout2, hfr2, hmi2, hmb2, hIn2, hOut2, hini2, hzd2, hlen2⟩ :=
      connectSrc_props s1 src o c hs0 hsl1 ho0 hol1
    have hinPres : ∀ b p : Int, inPort s2 b p = inPort s1 b p := by
      intro b p
      rw [inPort_rep, inPort_rep, hmi2]
    have houtPres : ∀ b p : Int, outPort s1 b p = outPort s b p := by
      intro b p
      rw [outPort_rep, outPort_rep, hmo1]
    refine ⟨s2, ?_, ?_, ?_, ?_, ?_, ?_, ?_, ?_, ?_, ?_, ?_⟩
    · rw [System.Connect, he1, Option.some_bind, he2]
    · rw [hinPres]; exact hin1
    · exact hout2
    · intro b p hbp
      rw [hinPres]; exact hfr1 b p hbp
    · intro b p hbp
      rw [hfr2 b p hbp]; exact houtPres b p
    · rw [hIn2, hIn1]
    · rw [hOut2, hOut1]
    · rw [hini2, hini1]
    · rw [hzd2, hzd1]
    · rw [hlen2, hlen1]
    · intro j
      rw [getI?_map, getI?_map, hmb2, hmb1]
  · intro s src dst o i c hi hb hs0 hsl ho0 hol
    have he1 := connectDst_neg s dst i c hi hb
    obtain ⟨s2, he2, hout2, hfr2, hmi2, hmb2, hIn2, hOut2, hini2, hzd2, hlen2⟩ :=
      connectSrc_props { s with Out := s.Out.set (-i-1).toNat (some c) }
        src o c hs0 hsl ho0 hol
    have hinPres : ∀ b p : Int, inPort s2 b p = inPort s b p := by
      intro b p
      rw [inPort_rep, inPort_rep, hmi2]
    refine ⟨s2, ?_, ?_, ?_, ?_, hinPres, ?_, ?_, ?_⟩
    · rw [System.Connect, he1, Option.some_bind, he2]
    · rw [hOut2]
      exact List.getElem?_set_self hb
    · exact hout2
    · intro b p hbp
      rw [hfr2 b p hbp, outPort_rep, outPort_rep]
    · rw [hIn2]
    · rw [hini2]
    · rw [hlen2]
  · intro s src dst o i c ho hb hd0 hdl hi0 hil
    obtain ⟨s1, he1, hin1, hfr1, hmo1, hmb1, hIn1, hOut1, hini1, hzd1, hlen1⟩ :=
      connectDst_props s dst i c hd0 hdl hi0 hil
    have hb1 : (-o-1).toNat < s1.In.length := by rw [hIn1]; exact hb
    have he2 := connectSrc_neg s1 src o c ho hb1
    refine ⟨{ s1 with In := s1.In.set (-o-1).toNat (some c) }, ?_, ?_, hin1, hfr1, ?_, ?_, ?_, ?_⟩
    · rw [System.Connect, he1, Option.some_bind, he2]
    · show (s1.In.set (-o-1).toNat (some c))[(-o-1).toNat]? = some (some c)
      exact List.getElem?_set_self hb1
    · intro b p
      rw [outPort_rep, outPort_rep, hmo1]
    · rw [show ({ s1 with In := s1.In.set (-o-1).toNat (some c) } : System).Out = s1.Out from rfl, hOut1]
    · rw [show ({ s1 with In := s1.In.set (-o-1).toNat (some c) } : System).initials = s1.initials from rfl, hini1]
    · rw [show ({ s1 with In := s1.In.set (-o-1).toNat (some c) } : System).blocks = s1.blocks from rfl, hlen1]

/-- Witness for C7: wiring block 0's output 0 to block 1's input 0 with
fresh edge 3 in a two-block system. -/
theorem Connect_binds_fresh_edge_witness :
    ∃ s2, (⟨[none], [none],
        [⟨⟨1, 1⟩, [none], [none]⟩, ⟨⟨1, 1⟩, [none], [none]⟩], [], false⟩ :
          System).Connect 0 1 0 0 3 = some s2
      ∧ inPort s2 1 0 = some (some 3)
      ∧ outPort s2 0 0 = some (some 3) := by
  obtain ⟨s2, h1, h2, h3, -⟩ :=
    Connect_binds_fresh_edge.1
      ⟨[none], [none], [⟨⟨1, 1⟩, [none], [none]⟩, ⟨⟨1, 1⟩, [none], [none]⟩], [], false⟩
      0 1 0 0 3 (by decide) (by decide) (by decide) (by decide)
      (by decide) (by decide) (by decide) (by decide)
  exact ⟨s2, h1, h2, h3⟩

/-! ## The two-block feedback cycle -/

theorem cycRun_odd (fA fB : Val → Val) (ic : Val) (k : Nat) :
    cycRun fA fB ic (2*k+1) =
      ⟨.recv, .send, none, aSeq fA fB ic k, bSeq fA fB ic k, k, k+1⟩ := by
  have h0 : (2*k) % 2 = 0 := by omega
  have h2 : (2*k) / 2 = k := by omega
  rw [cycRun, if_pos h0, h2]

theorem cycRun_even (fA fB : Val → Val) (ic : Val) (k : Nat) :
    cycRun fA fB ic (2*k+2) =
      ⟨.send, .recv, none, aSeq fA fB ic (k+1), bSeq fA fB ic k, k+1, k+1⟩ := by
  have h1 : ¬ (2*k+1) % 2 = 0 := by omega
  have h2 : (2*k+1) / 2 = k := by omega
  rw [show 2*k+2 = (2*k+1)+1 from rfl, cycRun, if_neg h1, h2]

theorem parity_cases (n : Nat) : ∃ k, n = 2*k ∨ n = 2*k+1 := by
  rcases Nat.even_or_odd n with ⟨k, hk⟩ | ⟨k, hk⟩
  · exact ⟨k, Or.inl (by omega)⟩
  · exact ⟨k, Or.inr (by omega)⟩

theorem cycRun_step (fA fB : Val → Val) (ic : Val) :
    ∀ n, CycStep fA fB (cycRun fA fB ic n) (cycRun fA fB ic (n+1)) := by
  intro n
  obtain ⟨k, rfl | rfl⟩ := parity_cases n
  · rcases k with _ | j
    · exact CycStep.deliverIC .recv ic 0 0 0 0
    · rw [show 2*(j+1) = 2*j+2 from by ring, cycRun_even,
        show 2*j+2+1 = 2*(j+1)+1 from by ring, cycRun_odd]
      exact CycStep.sendAB none (aSeq fA fB ic (j+1)) (bSeq fA fB ic j) (j+1) (j+1)
  · rw [cycRun_odd, show 2*k+1+1 = 2*k+2 from by ring, cycRun_even]
    exact CycStep.sendBA none (aSeq fA fB ic k) (bSeq fA fB ic k) k (k+1)

theorem cycRun_next_unique (fA fB : Val → Val) (ic : Val) :
    ∀ n s2, CycStep fA fB (cycRun fA fB ic n) s2 → s2 = cycRun fA fB ic (n+1) := by
  intro n s2 h
  obtain ⟨k, rfl | rfl⟩ := parity_cases n
  · rcases k with _ | j
    · have h0 : cycRun fA fB ic (2*0) =
          (⟨.recv, .recv, some ic, 0, 0, 0, 0⟩ : CycState) := rfl
      rw [h0] at h
      cases h
      rfl
    · rw [show 2*(j+1) = 2*j+2 from by ring] at h ⊢
      rw [cycRun_even] at h
      cases h
      rw [show 2*j+2+1 = 2*(j+1)+1 from by ring, cycRun_odd]
      rfl
  · rw [cycRun_odd] at h
    cases h
    rw [show 2*k+1+1 = 2*k+2 from by ring, cycRun_even]
    rfl

/-- C8: the two-block cycle A → B → A.  Seeded with one IC on the A→B
edge, the run `cycRun` is a genuine execution (every consecutive pair is a
rendezvous step), it is the only execution (each reached state has exactly
the next run state as successor, so no reachable state is stuck), and both
workers complete unboundedly many step cycles.  Unseeded, the initial
state has no successor at all: both workers block forever on their first
receive. -/
theorem cycle_progress_iff_seeded (fA fB : Val → Val) (ic : Val) :
    cycRun fA fB ic 0 = cycInit ic
    ∧ (∀ n, CycStep fA fB (cycRun fA fB ic n) (cycRun fA fB ic (n+1)))
    ∧ (∀ n s2, CycStep fA fB (cycRun fA fB ic n) s2 → s2 = cycRun fA fB ic (n+1))
    ∧ (∀ m : Nat, m ≤ (cycRun fA fB ic (2*m)).cntA ∧ m ≤ (cycRun fA fB ic (2*m)).cntB)
    ∧ (∀ s2, ¬ CycStep fA fB cycInitNoIC s2) := by
  refine ⟨rfl, cycRun_step fA fB ic, cycRun_next_unique fA fB ic, ?_, ?_⟩
  · intro m
    rcases m with _ | j
    · exact ⟨Nat.zero_le _, Nat.zero_le _⟩
    · rw [show 2*(j+1) = 2*j+2 from by ring, cycRun_even]
      exact ⟨le_rfl, le_rfl⟩
  · intro s2 h
    unfold cycInitNoIC at h
    cases h

/-- Witness for C8 with both blocks the identity map and IC value 1. -/
theorem cycle_progress_iff_seeded_witness :
    CycStep id id (cycRun id id 1 0) (cycRun id id 1 1)
    ∧ cycRun id id 1 1 = cycRun id id 1 (0+1)
    ∧ 2 ≤ (cycRun id id 1 (2*2)).cntA
    ∧ ¬ CycStep id id cycInitNoIC (cycInit 1) :=
  ⟨(cycle_progress_iff_seeded id id 1).2.1 0,
   (cycle_progress_iff_seeded id id 1).2.2.1 0 _
     ((cycle_progress_iff_seeded id id 1).2.1 0),
   ((cycle_progress_iff_seeded id id 1).2.2.2.1 2).1,
   (cycle_progress_iff_seeded id id 1).2.2.2.2 (cycInit 1)⟩

end Loops
